import Mathlib

/-!
Shallow embedding of the timeline/compositing core of a browser video editor.

The data model (`Clip`) comes from `types.ts`; the Composition Resolver
(`activeVideoClips`, `topVideoClip`, `activeAudioClips`, source-time mapping)
from the Player component; the mutation handlers (`handleSplit`,
`handleSeparateAudio`, `adjustTrim`, `handleFileUpload`, `handleUpdateClip`)
from the App component; and the drag state machine (`moveLive`,
`resizeLeftLive`, `resizeRightLive`, the mouse-up commits) from the Timeline
component. Seconds are modelled as rationals, track indices as integers.
-/

namespace VideoEditor

/-- `MediaType` from types.ts: 'video' | 'audio' | 'image'. -/
inductive MediaType where
  | video
  | audio
  | image
deriving DecidableEq, Repr

/-- `Clip` from types.ts. `duration` is the native duration of the source
file; `startOffset` the clip's timeline position; `trimStart`/`trimEnd` the
played sub-range of the source. -/
structure Clip where
  id : String
  fileUrl : String
  type : MediaType
  name : String
  duration : ℚ
  startOffset : ℚ
  trackIndex : ℤ
  trimStart : ℚ
  trimEnd : ℚ
  volume : ℚ
  isMuted : Bool
deriving DecidableEq, Repr

/-- The half-open activity test used by both Player filters:
`currentTime >= c.startOffset && currentTime < c.startOffset + (c.trimEnd - c.trimStart)`. -/
def clipActiveAt (c : Clip) (t : ℚ) : Bool :=
  decide (c.startOffset ≤ t) && decide (t < c.startOffset + (c.trimEnd - c.trimStart))

/-- Player: `clips.filter(c => c.type === 'video' && ...interval test...)`. -/
def activeVideoClips (clips : List Clip) (t : ℚ) : List Clip :=
  clips.filter fun c => decide (c.type = MediaType.video) && clipActiveAt c t

/-- Player: `clips.filter(c => c.type === 'audio' && ...interval test...)`. -/
def activeAudioClips (clips : List Clip) (t : ℚ) : List Clip :=
  clips.filter fun c => decide (c.type = MediaType.audio) && clipActiveAt c t

/-- One step of selecting the top clip: keep the incumbent unless the new
clip's trackIndex is strictly higher.  This is the head of the stable
descending sort `activeVideoClips.sort((a, b) => b.trackIndex - a.trackIndex)[0]`
in the Player: ties keep the earlier element. -/
def pickTop (best : Option Clip) (c : Clip) : Option Clip :=
  match best with
  | none => some c
  | some b => if b.trackIndex < c.trackIndex then some c else some b

/-- Player: `activeVideoClips.sort((a, b) => b.trackIndex - a.trackIndex)[0]`
(the active video clip with the highest trackIndex; first among ties). -/
def topVideoClip (clips : List Clip) (t : ℚ) : Option Clip :=
  (activeVideoClips clips t).foldl pickTop none

/-- Player: `targetSourceTime = clip.trimStart + (currentTime - clip.startOffset)`
(for both the video element and each pooled audio element). -/
def targetSourceTime (c : Clip) (t : ℚ) : ℚ :=
  c.trimStart + (t - c.startOffset)

/-- The App component's state relevant to the mutation handlers:
`clips`, `currentTime` and `selectedClipId`. -/
structure AppState where
  clips : List Clip
  currentTime : ℚ
  selectedClipId : Option String
deriving DecidableEq, Repr

/-- `clips.find(c => c.id === id)`. -/
def findClip (clips : List Clip) (id : String) : Option Clip :=
  clips.find? fun c => c.id == id

/-- App: `selectedClip = clips.find(c => c.id === selectedClipId)`
(no selection id means no selected clip). -/
def selectedClip (s : AppState) : Option Clip :=
  s.selectedClipId.bind fun id => findClip s.clips id

/-- The partial-field updates (`Partial<Clip>`) that the drag-commit path
passes to `handleUpdateClip`: the mouse-up handler only ever writes
`startOffset`, `trackIndex`, `trimStart` and `trimEnd`. -/
structure ClipUpdates where
  startOffset : Option ℚ
  trackIndex : Option ℤ
  trimStart : Option ℚ
  trimEnd : Option ℚ
deriving DecidableEq, Repr

/-- Spread-merge `{ ...c, ...updates }`: a field present in the updates
replaces the clip's field, an absent one leaves it alone. -/
def applyUpdates (c : Clip) (u : ClipUpdates) : Clip :=
  { c with
    startOffset := u.startOffset.getD c.startOffset
    trackIndex := u.trackIndex.getD c.trackIndex
    trimStart := u.trimStart.getD c.trimStart
    trimEnd := u.trimEnd.getD c.trimEnd }

/-- App: `handleUpdateClip(id, updates)` =
`setClips(prev => prev.map(c => c.id === id ? { ...c, ...updates } : c))`. -/
def handleUpdateClip (clips : List Clip) (id : String) (u : ClipUpdates) :
    List Clip :=
  clips.map fun c => if c.id == id then applyUpdates c u else c

/-- App: `handleSplit`.  `newId` stands for the `crypto.randomUUID()` call
that names the second half. -/
def handleSplit (s : AppState) (newId : String) : AppState :=
  match selectedClip s with
  | none => s
  | some sel =>
    let clipDuration := sel.trimEnd - sel.trimStart
    let clipEndTime := sel.startOffset + clipDuration
    if sel.startOffset < s.currentTime ∧ s.currentTime < clipEndTime then
      let splitPointRelative := s.currentTime - sel.startOffset
      let splitPointSource := sel.trimStart + splitPointRelative
      let firstHalf : Clip := { sel with trimEnd := splitPointSource }
      let secondHalf : Clip :=
        { sel with
          id := newId
          startOffset := s.currentTime
          trimStart := splitPointSource }
      { s with
        clips :=
          (s.clips.map fun c => if c.id == sel.id then firstHalf else c)
            ++ [secondHalf]
        selectedClipId := some newId }
    else s

/-- App: `handleSeparateAudio`.  `newId` stands for `crypto.randomUUID()`. -/
def handleSeparateAudio (s : AppState) (newId : String) : AppState :=
  match selectedClip s with
  | none => s
  | some sel =>
    if sel.type = MediaType.video then
      let updatedVideo : Clip := { sel with isMuted := true }
      let audioClip : Clip :=
        { sel with
          id := newId
          type := MediaType.audio
          name := "Audio from " ++ sel.name
          trackIndex := 0
          isMuted := false }
      { s with
        clips :=
          (s.clips.map fun c => if c.id == sel.id then updatedVideo else c)
            ++ [audioClip] }
    else s

/-- App: `adjustTrim(startDelta, endDelta)`. -/
def adjustTrim (s : AppState) (startDelta endDelta : ℚ) : AppState :=
  match selectedClip s with
  | none => s
  | some sel =>
    let newTrimStart := max 0 (sel.trimStart + startDelta)
    let newTrimEnd := min sel.duration (sel.trimEnd + endDelta)
    if newTrimStart < newTrimEnd then
      { s with
        clips := s.clips.map fun c =>
          if c.id == sel.id then
            { c with trimStart := newTrimStart, trimEnd := newTrimEnd }
          else c }
    else s

/-- App: the `onloadedmetadata` completion of `handleFileUpload`: append a
fresh clip at the cursor covering the whole source, then advance the cursor
past it.  `newId` stands for `crypto.randomUUID()`, `url` for the blob URL,
`isAudioFile` for `file.type.startsWith('audio')`, `d` for the decoded
`videoElement.duration`. -/
def handleFileUpload (s : AppState) (newId url fileName : String)
    (isAudioFile : Bool) (d : ℚ) : AppState :=
  let newClip : Clip :=
    { id := newId
      fileUrl := url
      type := if isAudioFile then MediaType.audio else MediaType.video
      name := fileName
      duration := d
      startOffset := s.currentTime
      trackIndex := 0
      trimStart := 0
      trimEnd := d
      volume := 1
      isMuted := false }
  { s with
    clips := s.clips ++ [newClip]
    currentTime := s.currentTime + d }

/-- Timeline: the snapshot of the dragged clip's fields taken at drag start
(the `initial*` fields of `DragState`). -/
structure DragSnapshot where
  initialStartOffset : ℚ
  initialTrimStart : ℚ
  initialTrimEnd : ℚ
  initialTrackIndex : ℤ
deriving DecidableEq, Repr

/-- The snapshot `startMove`/`startResizeLeft`/`startResizeRight` record
from the clip at drag start. -/
def snapshotOf (c : Clip) : DragSnapshot :=
  { initialStartOffset := c.startOffset
    initialTrimStart := c.trimStart
    initialTrimEnd := c.trimEnd
    initialTrackIndex := c.trackIndex }

/-- Timeline `handleMouseMove`, mode 'move': the live
`(currentStartOffset, currentTrackIndex)` after a pointer delta of
`deltaSeconds` horizontally and `tracksJump` whole lanes vertically. -/
def moveLive (d : DragSnapshot) (deltaSeconds : ℚ) (tracksJump : ℤ) :
    ℚ × ℤ :=
  (max 0 (d.initialStartOffset + deltaSeconds),
   max 0 (min (d.initialTrackIndex + tracksJump) 2))

/-- Timeline `handleMouseMove`, mode 'resize-left': the live
`(currentTrimStart, currentStartOffset)` after a pointer delta, with
`minDuration = 0.5` and the effective delta added to the start offset. -/
def resizeLeftLive (d : DragSnapshot) (deltaSeconds : ℚ) : ℚ × ℚ :=
  let newTrimStart :=
    max 0 (min (d.initialTrimStart + deltaSeconds) (d.initialTrimEnd - 1/2))
  let actualDelta := newTrimStart - d.initialTrimStart
  (newTrimStart, d.initialStartOffset + actualDelta)

/-- Timeline `handleMouseMove`, mode 'resize-right': the live
`currentTrimEnd` after a pointer delta, clamped between
`initialTrimStart + 0.5` and the clip's source `duration`. -/
def resizeRightLive (d : DragSnapshot) (clipDuration : ℚ)
    (deltaSeconds : ℚ) : ℚ :=
  max (d.initialTrimStart + 1/2) (min (d.initialTrimEnd + deltaSeconds) clipDuration)

/-- Timeline `handleMouseUp` for mode 'move', for a drag whose last mouse
move had horizontal delta `deltaSeconds` and lane jump `tracksJump`: commit
only `startOffset` and `trackIndex` through `handleUpdateClip`. -/
def commitMove (s : AppState) (clipId : String) (deltaSeconds : ℚ)
    (tracksJump : ℤ) : AppState :=
  match findClip s.clips clipId with
  | none => s
  | some c =>
    let live := moveLive (snapshotOf c) deltaSeconds tracksJump
    { s with
      clips := handleUpdateClip s.clips clipId
        { startOffset := some live.1
          trackIndex := some live.2
          trimStart := none
          trimEnd := none } }

/-- Timeline `handleMouseUp` for mode 'resize-left': commit only
`trimStart` and `startOffset`. -/
def commitResizeLeft (s : AppState) (clipId : String)
    (deltaSeconds : ℚ) : AppState :=
  match findClip s.clips clipId with
  | none => s
  | some c =>
    let live := resizeLeftLive (snapshotOf c) deltaSeconds
    { s with
      clips := handleUpdateClip s.clips clipId
        { startOffset := some live.2
          trackIndex := none
          trimStart := some live.1
          trimEnd := none } }

/-- Timeline `handleMouseUp` for mode 'resize-right': commit only
`trimEnd`. -/
def commitResizeRight (s : AppState) (clipId : String)
    (deltaSeconds : ℚ) : AppState :=
  match findClip s.clips clipId with
  | none => s
  | some c =>
    let live := resizeRightLive (snapshotOf c) c.duration deltaSeconds
    { s with
      clips := handleUpdateClip s.clips clipId
        { startOffset := none
          trackIndex := none
          trimStart := none
          trimEnd := some live } }

/-- The single mutation operations of the store that the invariant claims
quantify over: the three drag commits, split, trim-adjust and
separate-audio. -/
inductive Mutation where
  | moveCommit (clipId : String) (deltaSeconds : ℚ) (tracksJump : ℤ)
  | resizeLeftCommit (clipId : String) (deltaSeconds : ℚ)
  | resizeRightCommit (clipId : String) (deltaSeconds : ℚ)
  | split (newId : String)
  | trimAdjust (startDelta endDelta : ℚ)
  | separateAudio (newId : String)
deriving DecidableEq, Repr

/-- Run one mutation against the store. -/
def applyMutation (s : AppState) : Mutation → AppState
  | .moveCommit clipId ds tj => commitMove s clipId ds tj
  | .resizeLeftCommit clipId ds => commitResizeLeft s clipId ds
  | .resizeRightCommit clipId ds => commitResizeRight s clipId ds
  | .split newId => handleSplit s newId
  | .trimAdjust sd ed => adjustTrim s sd ed
  | .separateAudio newId => handleSeparateAudio s newId

/-- A concrete ten-second video clip used to evaluate the theorems on
concrete inputs. -/
def sampleClip : Clip :=
  { id := "a"
    fileUrl := "blob:a"
    type := MediaType.video
    name := "clip-a"
    duration := 10
    startOffset := 0
    trackIndex := 0
    trimStart := 0
    trimEnd := 10
    volume := 1
    isMuted := false }

/-- A concrete app state: the sample clip selected, cursor at 4 s. -/
def sampleState : AppState :=
  { clips := [sampleClip]
    currentTime := 4
    selectedClipId := some "a" }

/-- A clip whose trim window is strictly positive in length but lies at
negative source times: `trimStart = -2 < trimEnd = -1`. -/
def negativeTrimClip : Clip :=
  { id := "a"
    fileUrl := "blob:a"
    type := MediaType.video
    name := "clip-a"
    duration := 10
    startOffset := 0
    trackIndex := 0
    trimStart := -2
    trimEnd := -1
    volume := 1
    isMuted := false }

/-- A store holding only the negative-trim clip. -/
def negativeTrimState : AppState :=
  { clips := [negativeTrimClip]
    currentTime := 4
    selectedClipId := some "a" }

section ResolverLemmas

lemma clipActiveAt_iff (c : Clip) (t : ℚ) :
    clipActiveAt c t = true ↔
      c.startOffset ≤ t ∧ t < c.startOffset + (c.trimEnd - c.trimStart) := by
  simp [clipActiveAt]

lemma mem_activeVideoClips (clips : List Clip) (t : ℚ) (c : Clip) :
    c ∈ activeVideoClips clips t ↔
      c ∈ clips ∧ c.type = MediaType.video ∧
        c.startOffset ≤ t ∧ t < c.startOffset + (c.trimEnd - c.trimStart) := by
  simp [activeVideoClips, List.mem_filter, clipActiveAt, and_assoc]

lemma mem_activeAudioClips (clips : List Clip) (t : ℚ) (c : Clip) :
    c ∈ activeAudioClips clips t ↔
      c ∈ clips ∧ c.type = MediaType.audio ∧
        c.startOffset ≤ t ∧ t < c.startOffset + (c.trimEnd - c.trimStart) := by
  simp [activeAudioClips, List.mem_filter, clipActiveAt, and_assoc]

lemma foldl_pickTop_mem (l : List Clip) (acc : Option Clip) (b : Clip)
    (h : l.foldl pickTop acc = some b) : acc = some b ∨ b ∈ l := by
  induction l generalizing acc with
  | nil => exact Or.inl h
  | cons c cs ih =>
    rcases ih (pickTop acc c) h with h' | h'
    · cases acc with
      | none =>
        simp only [pickTop] at h'
        obtain rfl := Option.some_injective _ h'
        exact Or.inr (List.mem_cons_self _ _)
      | some a =>
        simp only [pickTop] at h'
        by_cases hlt : a.trackIndex < c.trackIndex
        · simp only [if_pos hlt] at h'
          obtain rfl := Option.some_injective _ h'
          exact Or.inr (List.mem_cons_self _ _)
        · simp only [if_neg hlt] at h'
          exact Or.inl h'
    · exact Or.inr (List.mem_cons_of_mem _ h')

lemma foldl_pickTop_ge (l : List Clip) (acc : Option Clip) (b : Clip)
    (h : l.foldl pickTop acc = some b) :
    (∀ a, acc = some a → a.trackIndex ≤ b.trackIndex) ∧
      ∀ c ∈ l, c.trackIndex ≤ b.trackIndex := by
  induction l generalizing acc with
  | nil =>
    refine ⟨fun a ha => ?_, by simp⟩
    simp only [List.foldl_nil] at h
    rw [ha] at h
    exact (Option.some_injective _ h) ▸ le_refl _
  | cons c cs ih =>
    have step := ih (pickTop acc c) h
    constructor
    · intro a ha
      subst ha
      simp only [pickTop] at step
      by_cases hlt : a.trackIndex < c.trackIndex
      · exact le_trans (le_of_lt hlt) (step.1 c (by rw [if_pos hlt]))
      · exact step.1 a (by rw [if_neg hlt])
    · intro d hd
      rcases List.mem_cons.mp hd with rfl | hd'
      · cases acc with
        | none => exact step.1 d rfl
        | some a =>
          simp only [pickTop] at step
          by_cases hlt : a.trackIndex < d.trackIndex
          · exact step.1 d (by rw [if_pos hlt])
          · exact le_trans (not_lt.mp hlt) (step.1 a (by rw [if_neg hlt]))
      · exact step.2 d hd'

lemma foldl_pickTop_isSome (l : List Clip) (a : Clip) (acc : Option Clip) :
    (l.foldl pickTop (some a)).isSome := by
  induction l generalizing a acc with
  | nil => simp
  | cons c cs ih =>
    simp only [List.foldl_cons, pickTop]
    by_cases hlt : a.trackIndex < c.trackIndex
    · rw [if_pos hlt]; exact ih c acc
    · rw [if_neg hlt]; exact ih a acc

end ResolverLemmas

/-- C1: the Composition Resolver activates exactly the clips whose half-open
interval `[startOffset, startOffset + (trimEnd - trimStart))` contains `t`
(the end instant excluded), separately for video and audio; all active audio
clips are simultaneously active (the audio filter keeps every one of them,
with its own volume and mute fields untouched); and among the active video
clips the selected top clip exists iff some video clip is active, is itself
an active video clip, and has trackIndex at least that of every active video
clip. -/
theorem resolver_activates_interval_and_top_track (clips : List Clip) (t : ℚ) :
    (∀ c, c ∈ activeVideoClips clips t ↔
      c ∈ clips ∧ c.type = MediaType.video ∧
        c.startOffset ≤ t ∧ t < c.startOffset + (c.trimEnd - c.trimStart)) ∧
    (∀ c, c ∈ activeAudioClips clips t ↔
      c ∈ clips ∧ c.type = MediaType.audio ∧
        c.startOffset ≤ t ∧ t < c.startOffset + (c.trimEnd - c.trimStart)) ∧
    ((topVideoClip clips t).isSome ↔ activeVideoClips clips t ≠ []) ∧
    (∀ b, topVideoClip clips t = some b →
      b ∈ activeVideoClips clips t ∧
        ∀ c ∈ activeVideoClips clips t, c.trackIndex ≤ b.trackIndex) := by
  refine ⟨mem_activeVideoClips clips t, mem_activeAudioClips clips t, ?_, ?_⟩
  · constructor
    · intro hs hnil
      rw [topVideoClip, hnil] at hs
      simp at hs
    · intro hne
      rcases List.exists_cons_of_ne_nil hne with ⟨a, l, hl⟩
      rw [topVideoClip, hl]
      simpa [pickTop] using foldl_pickTop_isSome l a none
  · intro b hb
    have hmem := foldl_pickTop_mem _ none b hb
    have hge := foldl_pickTop_ge _ none b hb
    refine ⟨?_, hge.2⟩
    rcases hmem with h | h
    · exact absurd h (by simp)
    · exact h

section StoreLemmas

lemma findClip_some_mem {clips : List Clip} {id : String} {c : Clip}
    (h : findClip clips id = some c) : c ∈ clips ∧ c.id = id := by
  refine ⟨List.mem_of_find?_eq_some h, ?_⟩
  have := List.find?_some h
  simpa using this

lemma selectedClip_mem {s : AppState} {sel : Clip}
    (h : selectedClip s = some sel) : sel ∈ s.clips := by
  unfold selectedClip at h
  cases hs : s.selectedClipId with
  | none => rw [hs] at h; simp at h
  | some sid =>
    rw [hs] at h
    simp only [Option.some_bind] at h
    exact (findClip_some_mem h).1

lemma eq_of_findClip_nodup {clips : List Clip}
    (hn : (clips.map Clip.id).Nodup) {id : String} {c0 c : Clip}
    (h0 : findClip clips id = some c0) (hc : c ∈ clips) (hid : c.id = id) :
    c = c0 := by
  obtain ⟨h0m, h0id⟩ := findClip_some_mem h0
  exact List.inj_on_of_nodup_map hn hc h0m (by rw [hid, h0id])

lemma forall₂_map_self {R : Clip → Clip → Prop} (l : List Clip)
    (f : Clip → Clip) (h : ∀ c ∈ l, R c (f c)) :
    List.Forall₂ R l (l.map f) := by
  induction l with
  | nil => simp
  | cons a l ih =>
    exact List.Forall₂.cons (h a (List.mem_cons_self _ _))
      (ih fun c hc => h c (List.mem_cons_of_mem _ hc))

end StoreLemmas

/-- C5: for an active clip the source-local playback time handed to the
renderer is `trimStart + (t - startOffset)`; it is monotone non-decreasing
in `t`, and for `t` in the active interval it lies in
`[trimStart, trimEnd)`. -/
theorem sourceTime_monotone_and_in_trim_window (c : Clip) (t t1 t2 : ℚ)
    (h12 : t1 ≤ t2) (hlo : c.startOffset ≤ t)
    (hhi : t < c.startOffset + (c.trimEnd - c.trimStart)) :
    targetSourceTime c t1 ≤ targetSourceTime c t2 ∧
      c.trimStart ≤ targetSourceTime c t ∧
      targetSourceTime c t < c.trimEnd := by
  unfold targetSourceTime
  refine ⟨by linarith, by linarith, by linarith⟩

/-- C5's theorem evaluated on the sample clip at times 3 ≤ 4, cursor 3. -/
theorem sourceTime_monotone_and_in_trim_window_witness :
    ((3:ℚ) ≤ 4 ∧ sampleClip.startOffset ≤ 3 ∧
      (3:ℚ) < sampleClip.startOffset + (sampleClip.trimEnd - sampleClip.trimStart)) ∧
    (targetSourceTime sampleClip 3 ≤ targetSourceTime sampleClip 4 ∧
      sampleClip.trimStart ≤ targetSourceTime sampleClip 3 ∧
      targetSourceTime sampleClip 3 < sampleClip.trimEnd) :=
  ⟨⟨by norm_num, by norm_num [sampleClip], by norm_num [sampleClip]⟩,
    sourceTime_monotone_and_in_trim_window sampleClip 3 3 4 (by norm_num)
      (by norm_num [sampleClip]) (by norm_num [sampleClip])⟩

/-- C7: during a resize-left drag the effective trim delta is added to the
live start offset, so the timeline position of the clip's right edge
(`liveStart + (initialTrimEnd - liveTrimStart)`) equals
`initialStart + (initialTrimEnd - initialTrimStart)` for every snapshot and
every pointer delta. -/
theorem resizeLeft_keeps_right_edge_anchored (d : DragSnapshot) (Δ : ℚ) :
    (resizeLeftLive d Δ).2 + (d.initialTrimEnd - (resizeLeftLive d Δ).1) =
      d.initialStartOffset + (d.initialTrimEnd - d.initialTrimStart) := by
  show d.initialStartOffset +
      (max 0 (min (d.initialTrimStart + Δ) (d.initialTrimEnd - 1/2)) -
        d.initialTrimStart) +
      (d.initialTrimEnd -
        max 0 (min (d.initialTrimStart + Δ) (d.initialTrimEnd - 1/2))) =
    d.initialStartOffset + (d.initialTrimEnd - d.initialTrimStart)
  ring

/-- C10: completing a file import with source duration `d` while the cursor
is at `currentTime` appends exactly one new clip with
`startOffset = currentTime`, `trackIndex = 0`, `trimStart = 0`,
`trimEnd = d`, `duration = d`, `volume = 1`, `isMuted = false`, leaves every
existing clip unchanged, and advances the cursor to `currentTime + d`. -/
theorem fileUpload_appends_one_clip_and_advances_cursor (s : AppState)
    (newId url fileName : String) (isAudioFile : Bool) (d : ℚ) :
    ∃ nc : Clip,
      (handleFileUpload s newId url fileName isAudioFile d).clips =
        s.clips ++ [nc] ∧
      nc.id = newId ∧
      nc.startOffset = s.currentTime ∧
      nc.trackIndex = 0 ∧
      nc.trimStart = 0 ∧
      nc.trimEnd = d ∧
      nc.duration = d ∧
      nc.volume = 1 ∧
      nc.isMuted = false ∧
      (handleFileUpload s newId url fileName isAudioFile d).currentTime =
        s.currentTime + d ∧
      (handleFileUpload s newId url fileName isAudioFile d).selectedClipId =
        s.selectedClipId :=
  ⟨_, rfl, rfl, rfl, rfl, rfl, rfl, rfl, rfl, rfl, rfl, rfl⟩

section UnfoldingLemmas

lemma handleSplit_of_selected {s : AppState} {sel : Clip}
    (hsel : selectedClip s = some sel) (newId : String) :
    handleSplit s newId =
      if sel.startOffset < s.currentTime ∧
          s.currentTime < sel.startOffset + (sel.trimEnd - sel.trimStart) then
        { s with
          clips :=
            (s.clips.map fun c =>
              if c.id == sel.id then
                { sel with
                  trimEnd := sel.trimStart + (s.currentTime - sel.startOffset) }
              else c)
              ++ [{ sel with
                    id := newId
                    startOffset := s.currentTime
                    trimStart :=
                      sel.trimStart + (s.currentTime - sel.startOffset) }]
          selectedClipId := some newId }
      else s := by
  unfold handleSplit
  rw [hsel]

lemma handleSeparateAudio_of_selected {s : AppState} {sel : Clip}
    (hsel : selectedClip s = some sel) (newId : String) :
    handleSeparateAudio s newId =
      if sel.type = MediaType.video then
        { s with
          clips :=
            (s.clips.map fun c =>
              if c.id == sel.id then { sel with isMuted := true } else c)
              ++ [{ sel with
                    id := newId
                    type := MediaType.audio
                    name := "Audio from " ++ sel.name
                    trackIndex := 0
                    isMuted := false }] }
      else s := by
  unfold handleSeparateAudio
  rw [hsel]

lemma adjustTrim_of_selected {s : AppState} {sel : Clip}
    (hsel : selectedClip s = some sel) (startDelta endDelta : ℚ) :
    adjustTrim s startDelta endDelta =
      if max 0 (sel.trimStart + startDelta) <
          min sel.duration (sel.trimEnd + endDelta) then
        { s with
          clips := s.clips.map fun c =>
            if c.id == sel.id then
              { c with
                trimStart := max 0 (sel.trimStart + startDelta)
                trimEnd := min sel.duration (sel.trimEnd + endDelta) }
            else c }
      else s := by
  unfold adjustTrim
  rw [hsel]

end UnfoldingLemmas

/-- C3: split mutates the store only when the cursor is strictly inside the
selected clip's active interval — at either boundary (or outside) it is a
no-op; when it applies, the clip is replaced by a first half keeping the
original id with `trimEnd := trimStart + (t - startOffset)` and all other
fields unchanged, a second half with the fresh id, `startOffset := t`,
`trimStart := trimStart + (t - startOffset)`, `trimEnd` and `trackIndex`
(and all remaining fields) unchanged is appended, and the second half
becomes the selected clip. -/
theorem split_strictly_inside_replaces_with_two_halves (s : AppState)
    (newId : String) (sel : Clip) (hsel : selectedClip s = some sel) :
    (¬(sel.startOffset < s.currentTime ∧
        s.currentTime < sel.startOffset + (sel.trimEnd - sel.trimStart)) →
      handleSplit s newId = s) ∧
    (sel.startOffset < s.currentTime →
      s.currentTime < sel.startOffset + (sel.trimEnd - sel.trimStart) →
      ∃ firstHalf secondHalf : Clip,
        (handleSplit s newId).clips =
          (s.clips.map fun c => if c.id == sel.id then firstHalf else c)
            ++ [secondHalf] ∧
        (handleSplit s newId).selectedClipId = some secondHalf.id ∧
        (handleSplit s newId).currentTime = s.currentTime ∧
        firstHalf = { sel with
          trimEnd := sel.trimStart + (s.currentTime - sel.startOffset) } ∧
        secondHalf = { sel with
          id := newId
          startOffset := s.currentTime
          trimStart := sel.trimStart + (s.currentTime - sel.startOffset) }) := by
  rw [handleSplit_of_selected hsel newId]
  constructor
  · intro hout
    rw [if_neg hout]
  · intro h1 h2
    rw [if_pos ⟨h1, h2⟩]
    exact ⟨_, _, rfl, rfl, rfl, rfl, rfl⟩

/-- C3's theorem evaluated: sample store, cursor at 4 strictly inside the
selected ten-second clip. -/
theorem split_strictly_inside_replaces_with_two_halves_witness :
    selectedClip sampleState = some sampleClip ∧
    ((¬(sampleClip.startOffset < sampleState.currentTime ∧
        sampleState.currentTime <
          sampleClip.startOffset + (sampleClip.trimEnd - sampleClip.trimStart)) →
      handleSplit sampleState "b" = sampleState) ∧
    (sampleClip.startOffset < sampleState.currentTime →
      sampleState.currentTime <
        sampleClip.startOffset + (sampleClip.trimEnd - sampleClip.trimStart) →
      ∃ firstHalf secondHalf : Clip,
        (handleSplit sampleState "b").clips =
          (sampleState.clips.map fun c =>
            if c.id == sampleClip.id then firstHalf else c) ++ [secondHalf] ∧
        (handleSplit sampleState "b").selectedClipId = some secondHalf.id ∧
        (handleSplit sampleState "b").currentTime = sampleState.currentTime ∧
        firstHalf = { sampleClip with
          trimEnd := sampleClip.trimStart +
            (sampleState.currentTime - sampleClip.startOffset) } ∧
        secondHalf = { sampleClip with
          id := "b"
          startOffset := sampleState.currentTime
          trimStart := sampleClip.trimStart +
            (sampleState.currentTime - sampleClip.startOffset) })) :=
  ⟨rfl, split_strictly_inside_replaces_with_two_halves sampleState "b"
    sampleClip rfl⟩

/-- C6: separate-audio on a selected video clip mutes the original in place
(every other field unchanged) and appends one audio duplicate of the
original's pre-mutation fields except a fresh id, `mediaKind := audio`,
`trackIndex := 0`, `isMuted := false` (the display name is rewritten, a
field the claim leaves open); on a selected non-video clip it is a no-op. -/
theorem separateAudio_mutes_original_and_appends_duplicate (s : AppState)
    (newId : String) (sel : Clip) (hsel : selectedClip s = some sel) :
    (sel.type ≠ MediaType.video → handleSeparateAudio s newId = s) ∧
    (sel.type = MediaType.video →
      (handleSeparateAudio s newId).clips =
        (s.clips.map fun c =>
          if c.id == sel.id then { sel with isMuted := true } else c)
          ++ [{ sel with
                id := newId
                type := MediaType.audio
                name := "Audio from " ++ sel.name
                trackIndex := 0
                isMuted := false }] ∧
      (handleSeparateAudio s newId).currentTime = s.currentTime ∧
      (handleSeparateAudio s newId).selectedClipId = s.selectedClipId) := by
  rw [handleSeparateAudio_of_selected hsel newId]
  constructor
  · intro hnv
    rw [if_neg hnv]
  · intro hv
    rw [if_pos hv]
    exact ⟨rfl, rfl, rfl⟩

/-- C6's theorem evaluated on the sample store (a selected video clip). -/
theorem separateAudio_mutes_original_and_appends_duplicate_witness :
    selectedClip sampleState = some sampleClip ∧
    ((sampleClip.type ≠ MediaType.video →
      handleSeparateAudio sampleState "b" = sampleState) ∧
    (sampleClip.type = MediaType.video →
      (handleSeparateAudio sampleState "b").clips =
        (sampleState.clips.map fun c =>
          if c.id == sampleClip.id then { sampleClip with isMuted := true }
          else c)
          ++ [{ sampleClip with
                id := "b"
                type := MediaType.audio
                name := "Audio from " ++ sampleClip.name
                trackIndex := 0
                isMuted := false }] ∧
      (handleSeparateAudio sampleState "b").currentTime =
        sampleState.currentTime ∧
      (handleSeparateAudio sampleState "b").selectedClipId =
        sampleState.selectedClipId)) :=
  ⟨rfl, separateAudio_mutes_original_and_appends_duplicate sampleState "b"
    sampleClip rfl⟩

/-- C9: trim-adjust computes `newTrimStart = max(0, trimStart + startDelta)`
and `newTrimEnd = min(sourceDuration, trimEnd + endDelta)`; when
`newTrimStart < newTrimEnd` it writes exactly those two fields of the
selected clip (all other clips and fields untouched), and otherwise the
whole operation is a silent no-op with no partial mutation. -/
theorem adjustTrim_clamps_or_silently_noops (s : AppState)
    (startDelta endDelta : ℚ) (sel : Clip)
    (hsel : selectedClip s = some sel) :
    (max 0 (sel.trimStart + startDelta) <
        min sel.duration (sel.trimEnd + endDelta) →
      (adjustTrim s startDelta endDelta).clips =
        (s.clips.map fun c =>
          if c.id == sel.id then
            { c with
              trimStart := max 0 (sel.trimStart + startDelta)
              trimEnd := min sel.duration (sel.trimEnd + endDelta) }
          else c) ∧
      (adjustTrim s startDelta endDelta).currentTime = s.currentTime ∧
      (adjustTrim s startDelta endDelta).selectedClipId =
        s.selectedClipId) ∧
    (¬ max 0 (sel.trimStart + startDelta) <
        min sel.duration (sel.trimEnd + endDelta) →
      adjustTrim s startDelta endDelta = s) := by
  rw [adjustTrim_of_selected hsel startDelta endDelta]
  constructor
  · intro hin
    rw [if_pos hin]
    exact ⟨rfl, rfl, rfl⟩
  · intro hout
    rw [if_neg hout]

/-- C9's theorem evaluated on the sample store with the `+ Начало` nudge
(startDelta 1, endDelta 0). -/
theorem adjustTrim_clamps_or_silently_noops_witness :
    selectedClip sampleState = some sampleClip ∧
    ((max 0 (sampleClip.trimStart + 1) <
        min sampleClip.duration (sampleClip.trimEnd + 0) →
      (adjustTrim sampleState 1 0).clips =
        (sampleState.clips.map fun c =>
          if c.id == sampleClip.id then
            { c with
              trimStart := max 0 (sampleClip.trimStart + 1)
              trimEnd := min sampleClip.duration (sampleClip.trimEnd + 0) }
          else c) ∧
      (adjustTrim sampleState 1 0).currentTime = sampleState.currentTime ∧
      (adjustTrim sampleState 1 0).selectedClipId =
        sampleState.selectedClipId) ∧
    (¬ max 0 (sampleClip.trimStart + 1) <
        min sampleClip.duration (sampleClip.trimEnd + 0) →
      adjustTrim sampleState 1 0 = sampleState)) :=
  ⟨rfl, adjustTrim_clamps_or_silently_noops sampleState 1 0 sampleClip rfl⟩

section CommitLemmas

lemma commitMove_none {s : AppState} {clipId : String}
    (hf : findClip s.clips clipId = none) (ds : ℚ) (tj : ℤ) :
    commitMove s clipId ds tj = s := by
  unfold commitMove
  rw [hf]

lemma commitMove_some {s : AppState} {clipId : String} {c0 : Clip}
    (hf : findClip s.clips clipId = some c0) (ds : ℚ) (tj : ℤ) :
    commitMove s clipId ds tj =
      { s with
        clips := handleUpdateClip s.clips clipId
          { startOffset := some (moveLive (snapshotOf c0) ds tj).1
            trackIndex := some (moveLive (snapshotOf c0) ds tj).2
            trimStart := none
            trimEnd := none } } := by
  unfold commitMove
  rw [hf]

lemma commitResizeLeft_none {s : AppState} {clipId : String}
    (hf : findClip s.clips clipId = none) (ds : ℚ) :
    commitResizeLeft s clipId ds = s := by
  unfold commitResizeLeft
  rw [hf]

lemma commitResizeLeft_some {s : AppState} {clipId : String} {c0 : Clip}
    (hf : findClip s.clips clipId = some c0) (ds : ℚ) :
    commitResizeLeft s clipId ds =
      { s with
        clips := handleUpdateClip s.clips clipId
          { startOffset := some (resizeLeftLive (snapshotOf c0) ds).2
            trackIndex := none
            trimStart := some (resizeLeftLive (snapshotOf c0) ds).1
            trimEnd := none } } := by
  unfold commitResizeLeft
  rw [hf]

lemma commitResizeRight_none {s : AppState} {clipId : String}
    (hf : findClip s.clips clipId = none) (ds : ℚ) :
    commitResizeRight s clipId ds = s := by
  unfold commitResizeRight
  rw [hf]

lemma commitResizeRight_some {s : AppState} {clipId : String} {c0 : Clip}
    (hf : findClip s.clips clipId = some c0) (ds : ℚ) :
    commitResizeRight s clipId ds =
      { s with
        clips := handleUpdateClip s.clips clipId
          { startOffset := none
            trackIndex := none
            trimStart := none
            trimEnd := some (resizeRightLive (snapshotOf c0) c0.duration ds) } } := by
  unfold commitResizeRight
  rw [hf]

end CommitLemmas

/-- C8: each drag commit writes only the fields its mode touches, pairing
the stored clip list before and after the commit position by position:
move leaves `trimStart`/`trimEnd` (and id, source, kind, name, duration,
volume, mute) of the dragged clip unchanged; resize-left leaves
`trackIndex`/`trimEnd` (and the same others) unchanged; resize-right leaves
`startOffset`/`trackIndex`/`trimStart` (and the same others) unchanged; and
every clip whose id is not the dragged one keeps all its committed values. -/
theorem commit_writes_only_mode_relevant_fields (s : AppState)
    (clipId : String) (ds : ℚ) (tj : ℤ) :
    List.Forall₂ (fun c c' =>
      c'.id = c.id ∧ c'.fileUrl = c.fileUrl ∧ c'.type = c.type ∧
      c'.name = c.name ∧ c'.duration = c.duration ∧
      c'.trimStart = c.trimStart ∧ c'.trimEnd = c.trimEnd ∧
      c'.volume = c.volume ∧ c'.isMuted = c.isMuted ∧
      (c.id ≠ clipId → c' = c)) s.clips (commitMove s clipId ds tj).clips ∧
    List.Forall₂ (fun c c' =>
      c'.id = c.id ∧ c'.fileUrl = c.fileUrl ∧ c'.type = c.type ∧
      c'.name = c.name ∧ c'.duration = c.duration ∧
      c'.trackIndex = c.trackIndex ∧ c'.trimEnd = c.trimEnd ∧
      c'.volume = c.volume ∧ c'.isMuted = c.isMuted ∧
      (c.id ≠ clipId → c' = c)) s.clips (commitResizeLeft s clipId ds).clips ∧
    List.Forall₂ (fun c c' =>
      c'.id = c.id ∧ c'.fileUrl = c.fileUrl ∧ c'.type = c.type ∧
      c'.name = c.name ∧ c'.duration = c.duration ∧
      c'.startOffset = c.startOffset ∧ c'.trackIndex = c.trackIndex ∧
      c'.trimStart = c.trimStart ∧ c'.volume = c.volume ∧
      c'.isMuted = c.isMuted ∧
      (c.id ≠ clipId → c' = c)) s.clips (commitResizeRight s clipId ds).clips := by
  refine ⟨?_, ?_, ?_⟩
  · cases hf : findClip s.clips clipId with
    | none =>
      rw [commitMove_none hf]
      exact List.forall₂_same.mpr fun c _ =>
        ⟨rfl, rfl, rfl, rfl, rfl, rfl, rfl, rfl, rfl, fun _ => rfl⟩
    | some c0 =>
      rw [commitMove_some hf]
      apply forall₂_map_self
      intro c _
      by_cases hid : c.id == clipId
      · have hceq : c.id = clipId := by simpa using hid
        simp [handleUpdateClip, applyUpdates, hid, hceq]
      · simp [handleUpdateClip, applyUpdates, hid]
  · cases hf : findClip s.clips clipId with
    | none =>
      rw [commitResizeLeft_none hf]
      exact List.forall₂_same.mpr fun c _ =>
        ⟨rfl, rfl, rfl, rfl, rfl, rfl, rfl, rfl, rfl, fun _ => rfl⟩
    | some c0 =>
      rw [commitResizeLeft_some hf]
      apply forall₂_map_self
      intro c _
      by_cases hid : c.id == clipId
      · have hceq : c.id = clipId := by simpa using hid
        simp [handleUpdateClip, applyUpdates, hid, hceq]
      · simp [handleUpdateClip, applyUpdates, hid]
  · cases hf : findClip s.clips clipId with
    | none =>
      rw [commitResizeRight_none hf]
      exact List.forall₂_same.mpr fun c _ =>
        ⟨rfl, rfl, rfl, rfl, rfl, rfl, rfl, rfl, rfl, rfl, fun _ => rfl⟩
    | some c0 =>
      rw [commitResizeRight_some hf]
      apply forall₂_map_self
      intro c _
      by_cases hid : c.id == clipId
      · have hceq : c.id = clipId := by simpa using hid
        simp [handleUpdateClip, applyUpdates, hid, hceq]
      · simp [handleUpdateClip, applyUpdates, hid]

section ResizeArith

lemma resizeLeftLive_fst_nonneg (d : DragSnapshot) (ds : ℚ) :
    0 ≤ (resizeLeftLive d ds).1 :=
  le_max_left _ _

lemma resizeLeftLive_min_duration (d : DragSnapshot) (ds : ℚ)
    (h0 : 0 ≤ d.initialTrimStart)
    (h2 : d.initialTrimStart + 1/2 ≤ d.initialTrimEnd) :
    (resizeLeftLive d ds).1 + 1/2 ≤ d.initialTrimEnd := by
  have hle : (resizeLeftLive d ds).1 ≤ d.initialTrimEnd - 1/2 := by
    show max 0 (min (d.initialTrimStart + ds) (d.initialTrimEnd - 1/2)) ≤
      d.initialTrimEnd - 1/2
    exact max_le (by linarith) (min_le_right _ _)
  linarith

lemma resizeLeftLive_fst_lt (d : DragSnapshot) (ds : ℚ)
    (h0 : 0 ≤ d.initialTrimStart)
    (h1 : d.initialTrimStart < d.initialTrimEnd) :
    (resizeLeftLive d ds).1 < d.initialTrimEnd := by
  show max 0 (min (d.initialTrimStart + ds) (d.initialTrimEnd - 1/2)) <
    d.initialTrimEnd
  exact max_lt (by linarith)
    (lt_of_le_of_lt (min_le_right _ _) (by linarith))

lemma resizeRightLive_ge (d : DragSnapshot) (dur ds : ℚ) :
    d.initialTrimStart + 1/2 ≤ resizeRightLive d dur ds :=
  le_max_left _ _

lemma resizeRightLive_le (d : DragSnapshot) (dur ds : ℚ)
    (h : d.initialTrimStart + 1/2 ≤ dur) :
    resizeRightLive d dur ds ≤ dur :=
  max_le h (min_le_right _ _)

end ResizeArith

/-- C2 counterexample: in a store whose only clip has `trimStart = -2 <
trimEnd = -1` (so the claim's hypothesis `trimStart < trimEnd` holds for
every clip), committing a resize-left drag with pointer delta 0 clamps
`trimStart` to `max 0 (min (-2) (-1 - 1/2)) = 0 > -1 = trimEnd`: the
mutation breaks `trimStart < trimEnd`. -/
theorem resizeLeft_breaks_trim_order_on_negative_trims :
    (∀ c ∈ negativeTrimState.clips, c.trimStart < c.trimEnd) ∧
    ¬ ∀ c ∈ (applyMutation negativeTrimState
        (Mutation.resizeLeftCommit "a" 0)).clips,
      c.trimStart < c.trimEnd := by
  constructor
  · intro c hc
    simp only [negativeTrimState, List.mem_singleton] at hc
    subst hc
    norm_num [negativeTrimClip]
  · intro hall
    have hf : findClip negativeTrimState.clips "a" = some negativeTrimClip :=
      rfl
    simp only [applyMutation] at hall
    rw [commitResizeLeft_some hf] at hall
    have hbad := hall (applyUpdates negativeTrimClip
      { startOffset := some (resizeLeftLive (snapshotOf negativeTrimClip) 0).2
        trackIndex := none
        trimStart := some (resizeLeftLive (snapshotOf negativeTrimClip) 0).1
        trimEnd := none })
      (by simp [handleUpdateClip, negativeTrimState, negativeTrimClip])
    norm_num [applyUpdates, resizeLeftLive, snapshotOf, negativeTrimClip]
      at hbad

/-- C2 amended: in a clip store with pairwise-distinct clip ids (the data
model's id-uniqueness invariant) in which every clip satisfies
`0 ≤ trimStart < trimEnd`, every single mutation (move commit, resize-left
commit, resize-right commit, split, trim-adjust, separate-audio) leaves
every clip satisfying `0 ≤ trimStart < trimEnd`. -/
theorem mutations_preserve_positive_trim_window (s : AppState) (m : Mutation)
    (hids : (s.clips.map Clip.id).Nodup)
    (h : ∀ c ∈ s.clips, 0 ≤ c.trimStart ∧ c.trimStart < c.trimEnd) :
    ∀ c ∈ (applyMutation s m).clips,
      0 ≤ c.trimStart ∧ c.trimStart < c.trimEnd := by
  cases m with
  | moveCommit clipId ds tj =>
    simp only [applyMutation]
    cases hf : findClip s.clips clipId with
    | none => rw [commitMove_none hf]; exact h
    | some c0 =>
      rw [commitMove_some hf]
      intro c' hc'
      simp only [handleUpdateClip, List.mem_map] at hc'
      obtain ⟨c, hc, rfl⟩ := hc'
      by_cases hid : c.id == clipId
      · rw [if_pos hid]; exact h c hc
      · rw [if_neg hid]; exact h c hc
  | resizeLeftCommit clipId ds =>
    simp only [applyMutation]
    cases hf : findClip s.clips clipId with
    | none => rw [commitResizeLeft_none hf]; exact h
    | some c0 =>
      rw [commitResizeLeft_some hf]
      intro c' hc'
      simp only [handleUpdateClip, List.mem_map] at hc'
      obtain ⟨c, hc, rfl⟩ := hc'
      by_cases hid : c.id == clipId
      · have hceq : c = c0 :=
          eq_of_findClip_nodup hids hf hc (by simpa using hid)
        rw [if_pos hid, ← hceq]
        obtain ⟨h0, h1⟩ := h c hc
        exact ⟨resizeLeftLive_fst_nonneg (snapshotOf c) ds,
          resizeLeftLive_fst_lt (snapshotOf c) ds h0 h1⟩
      · rw [if_neg hid]; exact h c hc
  | resizeRightCommit clipId ds =>
    simp only [applyMutation]
    cases hf : findClip s.clips clipId with
    | none => rw [commitResizeRight_none hf]; exact h
    | some c0 =>
      rw [commitResizeRight_some hf]
      intro c' hc'
      simp only [handleUpdateClip, List.mem_map] at hc'
      obtain ⟨c, hc, rfl⟩ := hc'
      by_cases hid : c.id == clipId
      · have hceq : c = c0 :=
          eq_of_findClip_nodup hids hf hc (by simpa using hid)
        rw [if_pos hid, ← hceq]
        obtain ⟨h0, h1⟩ := h c hc
        refine ⟨h0, lt_of_lt_of_le ?_ (resizeRightLive_ge (snapshotOf c) c.duration ds)⟩
        show c.trimStart < c.trimStart + 1/2
        linarith
      · rw [if_neg hid]; exact h c hc
  | split newId =>
    simp only [applyMutation]
    cases hsel : selectedClip s with
    | none => unfold handleSplit; rw [hsel]; exact h
    | some sel =>
      have hselmem := selectedClip_mem hsel
      rw [handleSplit_of_selected hsel newId]
      by_cases hin : sel.startOffset < s.currentTime ∧
        s.currentTime < sel.startOffset + (sel.trimEnd - sel.trimStart)
      · rw [if_pos hin]
        intro c' hc'
        simp only [List.mem_append, List.mem_map, List.mem_singleton] at hc'
        obtain ⟨h0, h1⟩ := h sel hselmem
        rcases hc' with ⟨c, hc, rfl⟩ | rfl
        · by_cases hid : c.id == sel.id
          · rw [if_pos hid]
            refine ⟨h0, ?_⟩
            show sel.trimStart <
              sel.trimStart + (s.currentTime - sel.startOffset)
            linarith [hin.1]
          · rw [if_neg hid]; exact h c hc
        · refine ⟨?_, ?_⟩
          · show 0 ≤ sel.trimStart + (s.currentTime - sel.startOffset)
            linarith [hin.1]
          · show sel.trimStart + (s.currentTime - sel.startOffset) <
              sel.trimEnd
            linarith [hin.2]
      · rw [if_neg hin]; exact h
  | trimAdjust sd ed =>
    simp only [applyMutation]
    cases hsel : selectedClip s with
    | none => unfold adjustTrim; rw [hsel]; exact h
    | some sel =>
      rw [adjustTrim_of_selected hsel sd ed]
      by_cases hlt : max 0 (sel.trimStart + sd) <
        min sel.duration (sel.trimEnd + ed)
      · rw [if_pos hlt]
        intro c' hc'
        simp only [List.mem_map] at hc'
        obtain ⟨c, hc, rfl⟩ := hc'
        by_cases hid : c.id == sel.id
        · rw [if_pos hid]
          exact ⟨le_max_left _ _, hlt⟩
        · rw [if_neg hid]; exact h c hc
      · rw [if_neg hlt]; exact h
  | separateAudio newId =>
    simp only [applyMutation]
    cases hsel : selectedClip s with
    | none => unfold handleSeparateAudio; rw [hsel]; exact h
    | some sel =>
      have hselmem := selectedClip_mem hsel
      rw [handleSeparateAudio_of_selected hsel newId]
      by_cases hv : sel.type = MediaType.video
      · rw [if_pos hv]
        intro c' hc'
        simp only [List.mem_append, List.mem_map, List.mem_singleton] at hc'
        rcases hc' with ⟨c, hc, rfl⟩ | rfl
        · by_cases hid : c.id == sel.id
          · rw [if_pos hid]; exact h sel hselmem
          · rw [if_neg hid]; exact h c hc
        · exact h sel hselmem
      · rw [if_neg hv]; exact h

/-- C2's amended theorem evaluated: the sample store (distinct ids, trim
window [0,10]) after a split at cursor 4. -/
theorem mutations_preserve_positive_trim_window_witness :
    ((sampleState.clips.map Clip.id).Nodup ∧
      ∀ c ∈ sampleState.clips, 0 ≤ c.trimStart ∧ c.trimStart < c.trimEnd) ∧
    ∀ c ∈ (applyMutation sampleState (Mutation.split "b")).clips,
      0 ≤ c.trimStart ∧ c.trimStart < c.trimEnd :=
  ⟨⟨by decide, by decide⟩,
    mutations_preserve_positive_trim_window sampleState (Mutation.split "b")
      (by decide) (by decide)⟩

/-- C4 counterexample: from the valid snapshot (timeline start 0, trim
window [0,10], source duration 10), a resize-left pointer delta of +100 s
clamps the live `trimStart` to exactly `trimEnd - 0.5`, and a resize-right
delta of -100 s clamps the live `trimEnd` to exactly `trimStart + 0.5`: so
"never produces `trimStart ≥ trimEnd - 0.5`" and "never produces
`trimEnd ≤ trimStart + 0.5`" both fail (the bound is attained). -/
theorem resize_clamps_attain_min_duration_boundary :
    ((0:ℚ) ≤ 0 ∧ (0:ℚ) + 1/2 ≤ 10 ∧ (10:ℚ) ≤ 10) ∧
    (resizeLeftLive ⟨0, 0, 10, 0⟩ 100).1 ≥ 10 - 1/2 ∧
    resizeRightLive ⟨0, 0, 10, 0⟩ 10 (-100) ≤ 0 + 1/2 := by
  refine ⟨⟨by norm_num, by norm_num, by norm_num⟩, ?_, ?_⟩ <;>
    norm_num [resizeLeftLive, resizeRightLive]

/-- C4 amended: for every store with distinct clip ids whose clips satisfy
`0 ≤ trimStart`, `trimStart + 0.5 ≤ trimEnd ≤ sourceDuration`, and every
pointer delta: resize-left never produces `trimStart > trimEnd - 0.5`
(equality is attainable), resize-right never produces
`trimEnd < trimStart + 0.5`, and neither resize ever pushes
`trimStart < 0` or `trimEnd > sourceDuration` — in the committed store and
in the live snapshot values alike. -/
theorem resize_live_and_committed_respect_bounds (s : AppState)
    (clipId : String) (ds : ℚ)
    (hids : (s.clips.map Clip.id).Nodup)
    (h : ∀ c ∈ s.clips, 0 ≤ c.trimStart ∧
      c.trimStart + 1/2 ≤ c.trimEnd ∧ c.trimEnd ≤ c.duration) :
    (∀ c ∈ (commitResizeLeft s clipId ds).clips, 0 ≤ c.trimStart ∧
      c.trimStart + 1/2 ≤ c.trimEnd ∧ c.trimEnd ≤ c.duration) ∧
    (∀ c ∈ (commitResizeRight s clipId ds).clips, 0 ≤ c.trimStart ∧
      c.trimStart + 1/2 ≤ c.trimEnd ∧ c.trimEnd ≤ c.duration) ∧
    (∀ c ∈ s.clips,
      0 ≤ (resizeLeftLive (snapshotOf c) ds).1 ∧
      (resizeLeftLive (snapshotOf c) ds).1 + 1/2 ≤ c.trimEnd ∧
      c.trimStart + 1/2 ≤ resizeRightLive (snapshotOf c) c.duration ds ∧
      resizeRightLive (snapshotOf c) c.duration ds ≤ c.duration) := by
  refine ⟨?_, ?_, ?_⟩
  · cases hf : findClip s.clips clipId with
    | none => rw [commitResizeLeft_none hf]; exact h
    | some c0 =>
      rw [commitResizeLeft_some hf]
      intro c' hc'
      simp only [handleUpdateClip, List.mem_map] at hc'
      obtain ⟨c, hc, rfl⟩ := hc'
      by_cases hid : c.id == clipId
      · have hceq : c = c0 :=
          eq_of_findClip_nodup hids hf hc (by simpa using hid)
        rw [if_pos hid, ← hceq]
        obtain ⟨h0, h2, h3⟩ := h c hc
        exact ⟨resizeLeftLive_fst_nonneg (snapshotOf c) ds,
          resizeLeftLive_min_duration (snapshotOf c) ds h0 h2, h3⟩
      · rw [if_neg hid]; exact h c hc
  · cases hf : findClip s.clips clipId with
    | none => rw [commitResizeRight_none hf]; exact h
    | some c0 =>
      rw [commitResizeRight_some hf]
      intro c' hc'
      simp only [handleUpdateClip, List.mem_map] at hc'
      obtain ⟨c, hc, rfl⟩ := hc'
      by_cases hid : c.id == clipId
      · have hceq : c = c0 :=
          eq_of_findClip_nodup hids hf hc (by simpa using hid)
        rw [if_pos hid, ← hceq]
        obtain ⟨h0, h2, h3⟩ := h c hc
        exact ⟨h0, resizeRightLive_ge (snapshotOf c) c.duration ds,
          resizeRightLive_le (snapshotOf c) c.duration ds
            (by show c.trimStart + 1/2 ≤ c.duration; linarith)⟩
      · rw [if_neg hid]; exact h c hc
  · intro c hc
    obtain ⟨h0, h2, h3⟩ := h c hc
    exact ⟨resizeLeftLive_fst_nonneg (snapshotOf c) ds,
      resizeLeftLive_min_duration (snapshotOf c) ds h0 h2,
      resizeRightLive_ge (snapshotOf c) c.duration ds,
      resizeRightLive_le (snapshotOf c) c.duration ds
        (by show c.trimStart + 1/2 ≤ c.duration; linarith)⟩

/-- C4's amended theorem evaluated on the sample store with a resize delta
of +2 s. -/
theorem resize_live_and_committed_respect_bounds_witness :
    ((sampleState.clips.map Clip.id).Nodup ∧
      ∀ c ∈ sampleState.clips, 0 ≤ c.trimStart ∧
        c.trimStart + 1/2 ≤ c.trimEnd ∧ c.trimEnd ≤ c.duration) ∧
    ((∀ c ∈ (commitResizeLeft sampleState "a" 2).clips, 0 ≤ c.trimStart ∧
      c.trimStart + 1/2 ≤ c.trimEnd ∧ c.trimEnd ≤ c.duration) ∧
    (∀ c ∈ (commitResizeRight sampleState "a" 2).clips, 0 ≤ c.trimStart ∧
      c.trimStart + 1/2 ≤ c.trimEnd ∧ c.trimEnd ≤ c.duration) ∧
    (∀ c ∈ sampleState.clips,
      0 ≤ (resizeLeftLive (snapshotOf c) 2).1 ∧
      (resizeLeftLive (snapshotOf c) 2).1 + 1/2 ≤ c.trimEnd ∧
      c.trimStart + 1/2 ≤ resizeRightLive (snapshotOf c) c.duration 2 ∧
      resizeRightLive (snapshotOf c) c.duration 2 ≤ c.duration)) :=
  ⟨⟨by decide, by
      intro c hc
      simp only [sampleState, List.mem_singleton] at hc
      subst hc
      norm_num [sampleClip]⟩,
    resize_live_and_committed_respect_bounds sampleState "a" 2
      (by decide) (by
        intro c hc
        simp only [sampleState, List.mem_singleton] at hc
        subst hc
        norm_num [sampleClip])⟩

end VideoEditor
